import Mathlib

/-!
Shallow embedding of the mode state machine and animation engine of the
led-blimp firmware (source file: `main.cpp`, the version with the Fader,
Rotator, Off and Light modes).  Machine integers are modelled as `Nat`
(all values involved stay far below their C++ type bounds; the one place
where unsigned wrap-around could matter, `millis() - lastChange`, is used
only with a monotone clock, so plain `Nat` subtraction agrees with the
C++ unsigned subtraction on the modelled executions).  The `float`
arithmetic of `RgbwColor::LinearBlend` is modelled over `ℚ` with the final
float-to-`uint8_t` conversion as `Int.toNat ∘ Int.floor` (truncation; all
values reached in the verified statements are nonnegative and exactly
representable, so the rational model agrees with the float code there).
-/

namespace Blimp

/-- Number of pixels on the ring (`const uint16_t PixelCount = 24`). -/
def PixelCount : Nat := 24

/-- Saturation constant of the RELEASE build (`const uint8_t saturation = 220`). -/
def saturation : Nat := 220

/-- Four 8-bit channels, as in the NeoPixelBus `RgbwColor`. -/
structure RgbwColor where
  R : Nat
  G : Nat
  B : Nat
  W : Nat
deriving DecidableEq, Repr

/-- The color constant `RgbwColor black(0,0,0,0)`. -/
def black : RgbwColor := ⟨0, 0, 0, 0⟩

/-- The color constant `RgbwColor red(saturation, 0, 0, 0)`. -/
def red : RgbwColor := ⟨saturation, 0, 0, 0⟩

/-- One channel of `RgbwColor::LinearBlend`: `left + (right - left) * progress`,
computed in rational arithmetic and converted back to the 8-bit channel by
truncation (the C++ float-to-`uint8_t` conversion). -/
def blendChannel (l r : Nat) (t : ℚ) : Nat :=
  (⌊(l : ℚ) + ((r : ℚ) - (l : ℚ)) * t⌋).toNat

/-- `RgbwColor::LinearBlend(left, right, progress)`, per channel. -/
def RgbwColor.LinearBlend (a b : RgbwColor) (t : ℚ) : RgbwColor :=
  ⟨blendChannel a.R b.R t, blendChannel a.G b.G t,
   blendChannel a.B b.B t, blendChannel a.W b.W t⟩

/-- `struct animState { RgbwColor StartColor; RgbwColor EndColor; uint16_t pixel; }`. -/
structure animState where
  StartColor : RgbwColor
  EndColor : RgbwColor
  pixel : Nat
deriving DecidableEq, Repr

/-- `int prevPix(int pix) { return (pix + PixelCount - 1) % PixelCount; }` -/
def prevPix (pix : Nat) : Nat := (pix + PixelCount - 1) % PixelCount

/-- `int nextPix(int pix) { return (pix + 1) % PixelCount; }` -/
def nextPix (pix : Nat) : Nat := (pix + 1) % PixelCount

/-- `const auto modeCount = countof(modes)`: the mode list is
`{ new modeOff, new modeFader, new modeRotator, new modeLight }`, so 4. -/
def modeCount : Nat := 4

/-- `const int fadeDelay = 15000` of `modeFader`. -/
def fadeDelay : Nat := 15000

/-- `const uint16_t rotateDelay = 200` of `modeRotator`. -/
def rotateDelay : Nat := 200

/-! ## Input debouncer / mode selector (`switchMode`) -/

/-- The two static locals of `switchMode`:
`static int lastVal = 0; static unsigned long lastChange = 0;`. -/
structure SwitchState where
  lastVal : Nat
  lastChange : Nat
deriving DecidableEq, Repr

/-- `int switchMode(int mode)`.  `now` is the value of `millis()` on this call
and `val` the value of `digitalRead(SwitchPin)`; the function returns the
updated static state together with the returned mode value.  Mirrors the
source: on a level change inside the 5 ms window it returns `lastVal`
(the stored raw level!) and leaves the statics untouched; on an accepted
change a released switch (`val == 0`) increments the mode modulo
`modeCount` and `lastChange` is refreshed; in all non-debounced paths
`lastVal` is set to `val` before returning. -/
def switchMode (ss : SwitchState) (now val mode : Nat) : SwitchState × Nat :=
  if val ≠ ss.lastVal then
    if now - ss.lastChange < 5 then
      (ss, ss.lastVal)
    else
      let mode' := if val = 0 then (mode + 1) % modeCount else mode
      (⟨val, now⟩, mode')
  else
    (⟨val, ss.lastChange⟩, mode)

/-- The selector as iterated over a whole input trace of `(millis, digitalRead)`
samples, starting from a given static state and mode, as `app_main`'s loop
does. -/
def runSelector : List (Nat × Nat) → SwitchState → Nat → Nat
  | [], _, mode => mode
  | (now, val) :: rest, ss, mode =>
      let r := switchMode ss now val mode
      runSelector rest r.1 r.2

/-! ## Mode dispatcher (`runMode`) -/

/-- Observable calls the dispatcher makes on the mode objects, in order. -/
inductive DispatchEvent where
  | stopEvt (m : Nat)
  | settleEvt (ticks : Nat)
  | setupEvt (m : Nat)
  | runEvt (m : Nat)
deriving DecidableEq, Repr

/-- `void runMode(int mode)` with its static `lastMode`, modelled as the list
of calls it performs plus the new value of `lastMode`.  The source reads:
`if (mode != lastMode) { modes[mode]->stop(); vTaskDelay(20); modes[mode]->setup(); }
lastMode = mode; modes[mode]->run();` — note that both `stop()` and `setup()`
are invoked on `modes[mode]`, the incoming mode. -/
def runMode (lastMode mode : Nat) : List DispatchEvent × Nat :=
  if mode ≠ lastMode then
    ([DispatchEvent.stopEvt mode, DispatchEvent.settleEvt 20,
      DispatchEvent.setupEvt mode, DispatchEvent.runEvt mode], mode)
  else
    ([DispatchEvent.runEvt mode], mode)

/-! ## modeFader -/

/-- The fields of `modeFader` that `fadeInOut` touches: the toggle
`int inOrOut` and the single `animState state[1]` slot (its start/end
colors; the pixel index is irrelevant, the callback paints all pixels). -/
structure FaderState where
  inOrOut : Nat
  StartColor : RgbwColor
  EndColor : RgbwColor
deriving DecidableEq, Repr

/-- `modeFader::setup()`: `inOrOut = 0; state[0].StartColor = black;
state[0].EndColor = black;` (the `ring` calls are sink output). -/
def faderSetup : FaderState := ⟨0, black, black⟩

/-- `modeFader::fadeInOut()`.  `sampled` is the random color
`HslColor(random(360)/360.0f, 1.0f, luminance)` drawn on this call (the
randomness is injected as an argument).  The source sets `col = black`,
overwrites it with the sampled color when `inOrOut == 0`, shifts
`StartColor = EndColor; EndColor = col`, and leaves `inOrOut` unchanged —
the `inOrOut ^= 1` line is commented out. -/
def fadeInOut (sampled : RgbwColor) (st : FaderState) : FaderState :=
  let col := if st.inOrOut = 0 then sampled else black
  ⟨st.inOrOut, st.EndColor, col⟩

/-- Iterating `fadeInOut` over a list of sampled random colors (one sample
per transition start), as successive `run()` polls do. -/
def fadeIter : List RgbwColor → FaderState → FaderState
  | [], st => st
  | c :: rest, st => fadeIter rest (fadeInOut c st)

/-! ## modeRotator -/

/-- The `modeRotator` fields driven by `setup`/`spin`: the two head indices,
the two precomputed tail-color arrays, and the per-pixel `animState`
array, the latter modelled as a function from pixel index to `animState`. -/
structure RotatorState where
  dot1 : Nat
  dot2 : Nat
  cols1 : List RgbwColor
  cols2 : List RgbwColor
  state : Nat → animState

/-- Update the `state` array at index `p` by `g` (`state[p]` assignment). -/
def updState (f : Nat → animState) (p : Nat) (g : animState → animState) :
    Nat → animState :=
  fun q => if q = p then g (f q) else f q

/-- One tail-walk loop of `modeRotator::spin`:
`auto p = dot; for (auto col : cols) { auto& s = state[p];
s.StartColor = s.EndColor; s.EndColor = col; p = prevPix(p); }`. -/
def applyTail : (Nat → animState) → Nat → List RgbwColor → (Nat → animState)
  | f, _, [] => f
  | f, p, col :: rest =>
      applyTail (updState f p fun s => ⟨s.EndColor, col, s.pixel⟩) (prevPix p) rest

/-- `modeRotator::spin()` (the `StartAnimation` call is engine interaction,
not ring state): advance both dots, then run the two tail walks. -/
def rotatorSpin (st : RotatorState) : RotatorState :=
  let d1 := nextPix st.dot1
  let d2 := nextPix st.dot2
  let f1 := applyTail st.state d1 st.cols1
  let f2 := applyTail f1 d2 st.cols2
  ⟨d1, d2, st.cols1, st.cols2, f2⟩

/-- The tail-color array loop of `modeRotator::setup`:
`for (int c = 0; c < PixelCount / 2; c++) { float progress =
float(c) / float(PixelCount / 2); cols[c] = RgbwColor::LinearBlend(col, black, progress); }`. -/
def tailCols (col : RgbwColor) : List RgbwColor :=
  (List.range (PixelCount / 2)).map
    fun (c : Nat) => RgbwColor.LinearBlend col black ((c : ℚ) / ((PixelCount / 2 : Nat) : ℚ))

/-- `modeRotator::setup()`, with the two random comet base colors `col1`,
`col2` injected as arguments: `dot1 = 0; dot2 = PixelCount / 2;` compute the
tail arrays, reset every pixel's `animState` to `{black, black, pix}`, then
`state[dot1].EndColor = col1; state[dot2].EndColor = col2;`. -/
def rotatorSetup (col1 col2 : RgbwColor) : RotatorState :=
  let base : Nat → animState := fun p => ⟨black, black, p⟩
  let f1 := updState base 0 fun s => ⟨s.StartColor, col1, s.pixel⟩
  let f2 := updState f1 (PixelCount / 2) fun s => ⟨s.StartColor, col2, s.pixel⟩
  ⟨0, PixelCount / 2, tailCols col1, tailCols col2, f2⟩

/-- The ring positions visited by one tail walk starting at `p`:
`p, prevPix p, prevPix (prevPix p), …` (`n` of them). -/
def tailPositions : Nat → Nat → List Nat
  | _, 0 => []
  | p, n + 1 => p :: tailPositions (prevPix p) n

/-- A tail walk presented as an explicit list of `(position, color)`
assignments; `applyTail f p cols` is the same fold with the positions
computed on the fly (see `applyTail_eq_applyUpdates`). -/
def applyUpdates : (Nat → animState) → List (Nat × RgbwColor) → (Nat → animState)
  | f, [] => f
  | f, (p, col) :: rest =>
      applyUpdates (updState f p fun s => ⟨s.EndColor, col, s.pixel⟩) rest

/-! ## Animation engine

Modelled from the spec: the animation engine (the `NeoPixelAnimator`
library behind `StartAnimation` / `UpdateAnimations` / `IsAnimating` /
`StopAll`) is not part of this repository's sources; its slot semantics
is taken from the spec's Animation Engine contract — `start` resets
`elapsed = 0` and sets the slot `Running`; each tick advances `elapsed`
by the time delta, computes `progress = min(elapsed/duration, 1)` and
moves the slot to `Completed` exactly when that progress reaches 1. -/

/-- Slot lifecycle state: `state ∈ {Idle, Running, Completed}`. -/
inductive SlotState where
  | Idle
  | Running
  | Completed
deriving DecidableEq, Repr

/-- Modelled from the spec: one animation slot, `{elapsed, duration, state}`
(the update callback itself is not part of the timing state). -/
structure AnimationSlot where
  elapsed : Nat
  duration : Nat
  state : SlotState
deriving DecidableEq, Repr

/-- Modelled from the spec: `start(slot, duration, callback)` resets
`elapsed = 0`, sets `duration`, sets `state = Running`. -/
def startSlot (d : Nat) : AnimationSlot := ⟨0, d, SlotState.Running⟩

/-- Modelled from the spec: a slot's progress, `min(elapsed / duration, 1)`. -/
def progress (s : AnimationSlot) : ℚ :=
  min ((s.elapsed : ℚ) / (s.duration : ℚ)) 1

/-- Modelled from the spec: one engine tick on one slot — a `Running` slot
advances `elapsed` by the time delta and becomes `Completed` exactly when
its progress reaches 1; other slots are untouched. -/
def tick (delta : Nat) (s : AnimationSlot) : AnimationSlot :=
  match s.state with
  | SlotState.Running =>
      let s' : AnimationSlot := ⟨s.elapsed + delta, s.duration, SlotState.Running⟩
      if progress s' = 1 then ⟨s'.elapsed, s'.duration, SlotState.Completed⟩ else s'
  | _ => s

/-- A whole run of engine ticks with the given time deltas. -/
def runTicks : List Nat → AnimationSlot → AnimationSlot
  | [], s => s
  | d :: rest, s => runTicks rest (tick d s)

/-! ## Helper lemmas about the blend arithmetic -/

lemma blendChannel_same (l : Nat) (t : ℚ) : blendChannel l l t = l := by
  simp [blendChannel]

lemma blendChannel_zero (l r : Nat) : blendChannel l r 0 = l := by
  simp [blendChannel]

lemma blendChannel_one (l r : Nat) : blendChannel l r 1 = r := by
  have h : (l : ℚ) + ((r : ℚ) - (l : ℚ)) * 1 = (r : ℚ) := by ring
  rw [blendChannel, h, Int.floor_natCast, Int.toNat_natCast]

lemma LinearBlend_same (a : RgbwColor) (t : ℚ) : RgbwColor.LinearBlend a a t = a := by
  cases a
  simp [RgbwColor.LinearBlend, blendChannel_same]

lemma LinearBlend_zero (a b : RgbwColor) : RgbwColor.LinearBlend a b 0 = a := by
  cases a
  simp [RgbwColor.LinearBlend, blendChannel_zero]

lemma LinearBlend_one (a b : RgbwColor) : RgbwColor.LinearBlend a b 1 = b := by
  cases b
  simp [RgbwColor.LinearBlend, blendChannel_one]

lemma blendChannel_to_black (l : Nat) (t : ℚ) :
    blendChannel l 0 t = (⌊(l : ℚ) * (1 - t)⌋).toNat := by
  have h : (l : ℚ) + (((0 : Nat) : ℚ) - (l : ℚ)) * t = (l : ℚ) * (1 - t) := by
    push_cast
    ring
  rw [blendChannel, h]

lemma blendChannel_eleven_twelfths (l : Nat) :
    blendChannel l 0 (11 / 12 : ℚ) = l / 12 := by
  have h : (l : ℚ) + (((0 : Nat) : ℚ) - (l : ℚ)) * (11 / 12 : ℚ)
      = (l : ℚ) / ((12 : Nat) : ℚ) := by
    push_cast
    ring
  rw [blendChannel, h, Int.floor_toNat, Nat.floor_div_nat, Nat.floor_natCast]

lemma tailCols_length (col : RgbwColor) : (tailCols col).length = PixelCount / 2 := by
  simp [tailCols]

lemma tailCols_head (col : RgbwColor) : (tailCols col).head? = some col := by
  rw [tailCols, List.head?_map]
  have hr : (List.range (PixelCount / 2)).head? = some 0 := by decide
  rw [hr]
  simp [LinearBlend_zero]

lemma tailCols_getLast (col : RgbwColor) :
    (tailCols col).getLast? = some ⟨col.R / 12, col.G / 12, col.B / 12, col.W / 12⟩ := by
  rw [tailCols, List.getLast?_map]
  have hr : (List.range (PixelCount / 2)).getLast? = some 11 := by decide
  rw [hr]
  have ht : (((PixelCount / 2 : Nat)) : ℚ) = (12 : ℚ) := by
    norm_num [PixelCount]
  cases col
  simp [RgbwColor.LinearBlend, black, blendChannel_eleven_twelfths, ht]

/-! ## Claim theorems -/

/-- Claim C9: for every pair of colors and every `t ∈ [0,1]`, the per-channel
linear blend satisfies `blend(A,A,t) = A`, `blend(A,B,0) = A` and
`blend(A,B,1) = B` on each of the four 8-bit channels. -/
theorem c9_blend_endpoint_identities (A B : RgbwColor) (t : ℚ)
    (h0 : 0 ≤ t) (h1 : t ≤ 1) :
    RgbwColor.LinearBlend A A t = A ∧
    RgbwColor.LinearBlend A B 0 = A ∧
    RgbwColor.LinearBlend A B 1 = B :=
  ⟨LinearBlend_same A t, LinearBlend_zero A B, LinearBlend_one A B⟩

/-- Witness for C9 at `A = red`, `B = black`, `t = 0`. -/
theorem c9_blend_endpoint_identities_witness :
    RgbwColor.LinearBlend red red 0 = red ∧
    RgbwColor.LinearBlend red black 0 = red ∧
    RgbwColor.LinearBlend red black 1 = black :=
  c9_blend_endpoint_identities red black 0 (le_refl 0) zero_le_one

/-- Claim C3, counterexample: the claim says the tail decays to zero (black)
at the far end, but for the base color `red = (220,0,0,0)` the last entry of
the precomputed tail array is `(18,0,0,0)`, not black — the linear walk
stops one step short of black (progress `11/12`, never `1`). -/
theorem c3_counterexample :
    (tailCols red).getLast? ≠ some black ∧
    (tailCols red).getLast? = some ⟨18, 0, 0, 0⟩ := by
  have h := tailCols_getLast red
  rw [h]
  refine ⟨?_, by rfl⟩
  simp [black, red, saturation]

/-- Claim C3 (amended): each precomputed tail array has length
`PixelCount / 2`, starts at the comet's full base color at the head, and
decays linearly with step `1/(PixelCount/2)` per tail position; the far end
is the base color reduced to a twelfth (floor) per channel — black is
reached only at the extrapolated next step, `blend(col, black, 1)`. -/
theorem c3_tail_decay (col : RgbwColor) :
    (tailCols col).length = PixelCount / 2 ∧
    (tailCols col).head? = some col ∧
    (tailCols col).getLast? = some ⟨col.R / 12, col.G / 12, col.B / 12, col.W / 12⟩ ∧
    RgbwColor.LinearBlend col black 1 = black :=
  ⟨tailCols_length col, tailCols_head col, tailCols_getLast col,
    LinearBlend_one col black⟩

/-- Claim C2: on a raw level change inside the 5 ms debounce window the
selector is supposed to leave the mode index unchanged, but `switchMode`
executes `return lastVal;` — it returns the stored raw *level* as the mode.
With the switch state `(lastVal = 1, lastChange = 1000)` (an accepted toggle
to high at t = 1000 ms) and current mode 2, the second raw toggle at
t = 1002 ms (2 ms later, inside the window) makes `switchMode` return 1, the
stored level, instead of keeping mode 2.  Iterating the selector over the
whole two-toggle trace of the claim's scenario shows the final mode is 1,
not the starting mode 2. -/
theorem c2_debounce_returns_level :
    (switchMode ⟨1, 1000⟩ 1002 0 2).2 = 1 ∧
    (switchMode ⟨1, 1000⟩ 1002 0 2).2 ≠ 2 ∧
    runSelector [(1000, 1), (1002, 0)] ⟨0, 0⟩ 2 = 1 := by
  decide

/-- Claim C1, counterexample: on the transition from mode 0 to mode 1 the
dispatcher's call sequence is `stop(1); settle; setup(1); run(1)` — `stop()`
is invoked on the *incoming* mode 1, and no `stop()` call on the previously
active mode 0 occurs, contrary to the claim. -/
theorem c1_counterexample :
    (runMode 0 1).1 = [DispatchEvent.stopEvt 1, DispatchEvent.settleEvt 20,
      DispatchEvent.setupEvt 1, DispatchEvent.runEvt 1] ∧
    DispatchEvent.stopEvt 0 ∉ (runMode 0 1).1 := by
  decide

/-- Claim C1 (amended): on every transition `M → M'` with `M' ≠ M`, the
dispatcher invokes `stop()` on the *incoming* mode `M'` (not on the previous
mode), then waits the fixed 20-tick settle period, then invokes `setup()` on
`M'`; afterwards it always invokes `run()` on the now-current mode, and the
stored `lastMode` becomes the current mode. -/
theorem c1_dispatcher_sequence (lastMode mode : Nat) :
    (mode ≠ lastMode →
      (runMode lastMode mode).1 =
        [DispatchEvent.stopEvt mode, DispatchEvent.settleEvt 20,
         DispatchEvent.setupEvt mode, DispatchEvent.runEvt mode]) ∧
    (runMode lastMode mode).1.getLast? = some (DispatchEvent.runEvt mode) ∧
    (runMode lastMode mode).2 = mode := by
  by_cases h : mode = lastMode
  · subst h
    simp [runMode]
  · simp [runMode, h]

/-- Witness for C1 (amended) on the transition from mode 0 to mode 1. -/
theorem c1_dispatcher_sequence_witness :
    (runMode 0 1).1 =
      [DispatchEvent.stopEvt 1, DispatchEvent.settleEvt 20,
       DispatchEvent.setupEvt 1, DispatchEvent.runEvt 1] ∧
    (runMode 0 1).1.getLast? = some (DispatchEvent.runEvt 1) :=
  ⟨(c1_dispatcher_sequence 0 1).1 (by decide),
   (c1_dispatcher_sequence 0 1).2.1⟩

/-- Claim C6, counterexample: a raw press-edge (low to high) arriving inside
the debounce window *does* change the mode index: with switch state
`(lastVal = 0, lastChange = 1000)` and mode 2, a press at t = 1003 ms makes
`switchMode` return `lastVal = 0`, changing the mode from 2 to 0 — so
"a press-edge never changes it" fails as stated. -/
theorem c6_counterexample :
    (switchMode ⟨0, 1000⟩ 1003 1 2).2 = 0 ∧
    (switchMode ⟨0, 1000⟩ 1003 1 2).2 ≠ 2 := by
  decide

/-- Claim C6 (amended): every *accepted* release-edge (high to low, at least
5 ms after the last accepted change) advances the mode index by exactly one
modulo `modeCount`, an *accepted* press-edge (low to high) leaves it
unchanged, and consequently `modeCount` consecutive accepted release-edges
return an in-range mode index to its starting value. -/
theorem c6_accepted_edges (ss : SwitchState) (now val mode : Nat)
    (hwin : 5 ≤ now - ss.lastChange) :
    (ss.lastVal = 1 → val = 0 →
      (switchMode ss now val mode).2 = (mode + 1) % modeCount) ∧
    (ss.lastVal = 0 → val = 1 → (switchMode ss now val mode).2 = mode) ∧
    (mode < modeCount →
      (fun m => (switchMode ⟨1, 0⟩ 10 0 m).2)^[modeCount] mode = mode) := by
  have hnot : ¬ (now - ss.lastChange < 5) := by omega
  refine ⟨?_, ?_, ?_⟩
  · intro hlv hv
    subst hv
    simp [switchMode, hlv, hnot]
  · intro hlv hv
    subst hv
    simp [switchMode, hlv, hnot]
  · intro hm
    have aux : ∀ m : Fin modeCount,
        (fun m => (switchMode ⟨1, 0⟩ 10 0 m).2)^[modeCount] m.val = m.val := by
      decide
    exact aux ⟨mode, hm⟩

/-- Witness for C6 (amended): one accepted release-edge from mode 0, and the
four-fold accepted-release cycle back to mode 0. -/
theorem c6_accepted_edges_witness :
    (switchMode ⟨1, 0⟩ 10 0 0).2 = (0 + 1) % modeCount ∧
    (fun m => (switchMode ⟨1, 0⟩ 10 0 m).2)^[modeCount] 0 = 0 :=
  ⟨(c6_accepted_edges ⟨1, 0⟩ 10 0 0 (by decide)).1 rfl rfl,
   (c6_accepted_edges ⟨1, 0⟩ 10 0 0 (by decide)).2.2 (by decide)⟩

lemma switchMode_preserves (ss : SwitchState) (now val mode : Nat)
    (hm : mode < modeCount) (hv : ss.lastVal < modeCount) (hval : val < modeCount) :
    (switchMode ss now val mode).2 < modeCount ∧
    (switchMode ss now val mode).1.lastVal < modeCount := by
  simp only [switchMode]
  split_ifs with h1 h2 h3
  · exact ⟨hv, hv⟩
  · exact ⟨Nat.mod_lt _ (by decide), hval⟩
  · exact ⟨hm, hval⟩
  · exact ⟨hm, hval⟩

lemma runSelector_lt : ∀ (inputs : List (Nat × Nat)) (ss : SwitchState) (mode : Nat),
    mode < modeCount → ss.lastVal < modeCount → (∀ p ∈ inputs, p.2 ≤ 1) →
    runSelector inputs ss mode < modeCount
  | [], _, _, hm, _, _ => hm
  | (now, val) :: rest, ss, mode, hm, hv, h => by
      have hval : val < modeCount := by
        have h1 := h (now, val) (List.mem_cons_self _ _)
        have h2 : modeCount = 4 := rfl
        omega
      have hstep := switchMode_preserves ss now val mode hm hv hval
      exact runSelector_lt rest _ _ hstep.1 hstep.2
        (fun p hp => h p (List.mem_cons_of_mem _ hp))

/-- Claim C7: for every sequence of raw switch levels (each 0 or 1, as
`digitalRead` produces) and timer values, the mode index produced by the
selector loop starting from `app_main`'s initial state (mode 0, statics
`lastVal = 0`, `lastChange = 0`) always stays in `[0, modeCount)`. -/
theorem c7_selector_in_range (inputs : List (Nat × Nat))
    (h : ∀ p ∈ inputs, p.2 ≤ 1) :
    runSelector inputs ⟨0, 0⟩ 0 < modeCount :=
  runSelector_lt inputs ⟨0, 0⟩ 0 (by decide) (by decide) h

/-- Witness for C7 on a three-sample input trace. -/
theorem c7_selector_in_range_witness :
    runSelector [(1000, 1), (1002, 0), (1007, 1)] ⟨0, 0⟩ 0 < modeCount :=
  c7_selector_in_range [(1000, 1), (1002, 0), (1007, 1)] (by decide)

lemma spinIter_dots (col1 col2 : RgbwColor) (K : Nat) :
    (rotatorSpin^[K] (rotatorSetup col1 col2)).dot1 = K % PixelCount ∧
    (rotatorSpin^[K] (rotatorSetup col1 col2)).dot2 = (PixelCount / 2 + K) % PixelCount := by
  induction K with
  | zero => exact ⟨rfl, rfl⟩
  | succ K ih =>
      rw [Function.iterate_succ_apply']
      have h1 : (rotatorSpin (rotatorSpin^[K] (rotatorSetup col1 col2))).dot1
          = nextPix (rotatorSpin^[K] (rotatorSetup col1 col2)).dot1 := rfl
      have h2 : (rotatorSpin (rotatorSpin^[K] (rotatorSetup col1 col2))).dot2
          = nextPix (rotatorSpin^[K] (rotatorSetup col1 col2)).dot2 := rfl
      rw [h1, h2, ih.1, ih.2]
      unfold nextPix PixelCount
      constructor <;> omega

/-- Claim C5: starting from `modeRotator::setup` (`dot1 = 0`,
`dot2 = PixelCount/2`), after `K` spin events `dot1` and `dot2` have each
advanced exactly `K` positions modulo the ring size, and
`(dot2 - dot1) mod PixelCount` remains `PixelCount/2` after every spin. -/
theorem c5_rotator_dots (col1 col2 : RgbwColor) (K : Nat) :
    (rotatorSpin^[K] (rotatorSetup col1 col2)).dot1 = K % PixelCount ∧
    (rotatorSpin^[K] (rotatorSetup col1 col2)).dot2 = (PixelCount / 2 + K) % PixelCount ∧
    (((rotatorSpin^[K] (rotatorSetup col1 col2)).dot2 : ℤ)
      - ((rotatorSpin^[K] (rotatorSetup col1 col2)).dot1 : ℤ)) % (PixelCount : ℤ)
      = ((PixelCount / 2 : Nat) : ℤ) := by
  obtain ⟨h1, h2⟩ := spinIter_dots col1 col2 K
  refine ⟨h1, h2, ?_⟩
  rw [h1, h2]
  simp only [PixelCount]
  omega

/-! ## Animation slot lemmas (claim C4) -/

lemma progress_le_one (s : AnimationSlot) : progress s ≤ 1 :=
  min_le_right _ _

lemma progress_eq_one_iff (e D : Nat) (st : SlotState) (hD : 0 < D) :
    progress ⟨e, D, st⟩ = 1 ↔ D ≤ e := by
  unfold progress
  rw [min_eq_right_iff, one_le_div (by exact_mod_cast hD), Nat.cast_le]

lemma progress_mono (s : AnimationSlot) (δ : Nat) :
    progress s ≤ progress (tick δ s) := by
  obtain ⟨e, D, st⟩ := s
  cases st with
  | Idle => exact le_rfl
  | Completed => exact le_rfl
  | Running =>
      have key : progress (⟨e, D, SlotState.Running⟩ : AnimationSlot)
          ≤ progress (⟨e + δ, D, SlotState.Running⟩ : AnimationSlot) := by
        unfold progress
        refine min_le_min ?_ le_rfl
        rcases Nat.eq_zero_or_pos D with hD | hD
        · simp [hD]
        · have hc : (0 : ℚ) < (D : ℚ) := by exact_mod_cast hD
          rw [div_le_div_iff_of_pos_right hc]
          exact_mod_cast Nat.le_add_right e δ
      by_cases h : progress (⟨e + δ, D, SlotState.Running⟩ : AnimationSlot) = 1
      · simp only [tick, if_pos h]
        exact le_trans key (le_of_eq rfl)
      · simp only [tick, if_neg h]
        exact key

lemma tick_completes (e D δ : Nat) (hD : 0 < D) (h : D ≤ e + δ) :
    tick δ ⟨e, D, SlotState.Running⟩ = ⟨e + δ, D, SlotState.Completed⟩ := by
  simp only [tick]
  rw [if_pos ((progress_eq_one_iff (e + δ) D SlotState.Running hD).mpr h)]

lemma tick_keeps_running (e D δ : Nat) (hD : 0 < D) (h : e + δ < D) :
    tick δ ⟨e, D, SlotState.Running⟩ = ⟨e + δ, D, SlotState.Running⟩ := by
  simp only [tick]
  rw [if_neg]
  intro hc
  exact absurd ((progress_eq_one_iff (e + δ) D SlotState.Running hD).mp hc) (by omega)

lemma runTicks_frozen (deltas : List Nat) (s : AnimationSlot)
    (h : s.state = SlotState.Completed) : runTicks deltas s = s := by
  induction deltas with
  | nil => rfl
  | cons d rest ih =>
      have ht : tick d s = s := by
        obtain ⟨e, D, st⟩ := s
        cases st with
        | Running => simp at h
        | Idle => rfl
        | Completed => rfl
      rw [runTicks, ht, ih]

lemma runTicks_running (D : Nat) (hD : 0 < D) :
    ∀ (deltas : List Nat) (e : Nat), e < D →
      ((runTicks deltas ⟨e, D, SlotState.Running⟩).state = SlotState.Completed
        ↔ D ≤ e + deltas.sum)
  | [], e, he => by
      constructor
      · intro h
        simp [runTicks] at h
      · intro h
        simp at h
        omega
  | d :: rest, e, he => by
      by_cases h : D ≤ e + d
      · rw [runTicks, tick_completes e D d hD h, runTicks_frozen rest _ rfl]
        simp [List.sum_cons]
        omega
      · rw [runTicks, tick_keeps_running e D d hD (by omega),
          runTicks_running D hD rest (e + d) (by omega)]
        simp [List.sum_cons]
        omega

/-- Claim C4: a slot started with duration `D > 0` is `Completed` after a run
of ticks exactly when the accumulated simulated time reaches `D`, never
earlier; `progress` is monotonically non-decreasing under ticks and clamped
to 1; and a Fader slot (duration `fadeDelay = 15000`) whose elapsed time is
exactly 15000 on a tick yields `progress = 1` and `Completed` on that tick,
while any tick with elapsed below 15000 leaves it `Running` with
`progress < 1`. -/
theorem c4_slot_completion (D : Nat) (hD : 0 < D) (deltas : List Nat) :
    ((runTicks deltas (startSlot D)).state = SlotState.Completed ↔ D ≤ deltas.sum) ∧
    (∀ (s : AnimationSlot) (δ : Nat), progress s ≤ progress (tick δ s)) ∧
    (∀ s : AnimationSlot, progress s ≤ 1) ∧
    (tick fadeDelay (startSlot fadeDelay)).state = SlotState.Completed ∧
    progress (tick fadeDelay (startSlot fadeDelay)) = 1 ∧
    (∀ δ : Nat, δ < fadeDelay →
      (tick δ (startSlot fadeDelay)).state = SlotState.Running ∧
      progress (tick δ (startSlot fadeDelay)) < 1) := by
  have hfd : 0 < fadeDelay := by decide
  have hcomp : tick fadeDelay (startSlot fadeDelay)
      = ⟨0 + fadeDelay, fadeDelay, SlotState.Completed⟩ :=
    tick_completes 0 fadeDelay fadeDelay hfd (by omega)
  refine ⟨?_, fun s δ => progress_mono s δ, progress_le_one, ?_, ?_, ?_⟩
  · have h := runTicks_running D hD deltas 0 hD
    simpa using h
  · rw [hcomp]
  · rw [hcomp]
    exact (progress_eq_one_iff (0 + fadeDelay) fadeDelay SlotState.Completed hfd).mpr
      (by omega)
  · intro δ hδ
    have hrun : tick δ (startSlot fadeDelay)
        = ⟨0 + δ, fadeDelay, SlotState.Running⟩ :=
      tick_keeps_running 0 fadeDelay δ hfd (by omega)
    rw [hrun]
    refine ⟨rfl, ?_⟩
    have hne : progress (⟨0 + δ, fadeDelay, SlotState.Running⟩ : AnimationSlot) ≠ 1 :=
      fun hc =>
        absurd ((progress_eq_one_iff (0 + δ) fadeDelay SlotState.Running hfd).mp hc)
          (by omega)
    exact lt_of_le_of_ne (progress_le_one _) hne

/-- Witness for C4: a single tick of length 15000 completes a slot of
duration 15000. -/
theorem c4_slot_completion_witness :
    (runTicks [15000] (startSlot 15000)).state = SlotState.Completed :=
  (c4_slot_completion 15000 (by decide) [15000]).1.mpr (by simp)

/-! ## Fader lemmas (claim C8) -/

lemma fadeInOut_inOrOut (c : RgbwColor) (st : FaderState) :
    (fadeInOut c st).inOrOut = st.inOrOut := rfl

lemma fadeIter_inOrOut : ∀ (samples : List RgbwColor) (st : FaderState),
    (fadeIter samples st).inOrOut = st.inOrOut
  | [], _ => rfl
  | c :: rest, st => by
      rw [fadeIter, fadeIter_inOrOut rest _, fadeInOut_inOrOut]

/-- Claim C8: after `modeFader::setup` the toggle `inOrOut` stays 0 through
every sequence of transitions (the flip is commented out), so every
transition started by `fadeInOut` sets the slot's end color to the freshly
sampled random-hue color — never to the black fade-out target — and the
previous end color becomes the new start color. -/
theorem c8_fader_always_fades_to_color :
    (∀ samples : List RgbwColor, (fadeIter samples faderSetup).inOrOut = 0) ∧
    (∀ (c : RgbwColor) (st : FaderState), st.inOrOut = 0 →
      (fadeInOut c st).EndColor = c ∧
      (fadeInOut c st).StartColor = st.EndColor ∧
      (fadeInOut c st).inOrOut = 0 ∧
      (c ≠ black → (fadeInOut c st).EndColor ≠ black)) := by
  constructor
  · intro samples
    rw [fadeIter_inOrOut]
    rfl
  · intro c st h
    have hend : (fadeInOut c st).EndColor = c := by
      simp [fadeInOut, h]
    refine ⟨hend, rfl, ?_, ?_⟩
    · rw [fadeInOut_inOrOut, h]
    · intro hc
      rw [hend]
      exact hc

/-- Witness for C8: one transition from the freshly set up fader with the
sampled color `red`. -/
theorem c8_fader_always_fades_to_color_witness :
    (fadeIter [red] faderSetup).inOrOut = 0 ∧
    (fadeInOut red faderSetup).EndColor = red ∧
    (fadeInOut red faderSetup).EndColor ≠ black :=
  ⟨c8_fader_always_fades_to_color.1 [red],
   (c8_fader_always_fades_to_color.2 red faderSetup rfl).1,
   (c8_fader_always_fades_to_color.2 red faderSetup rfl).2.2.2 (by decide)⟩

/-! ## Spin coverage lemmas (claim C10) -/

lemma tailPositions_length : ∀ (p n : Nat), (tailPositions p n).length = n
  | _, 0 => rfl
  | p, n + 1 => by
      rw [tailPositions, List.length_cons, tailPositions_length (prevPix p) n]

lemma applyTail_eq_applyUpdates : ∀ (cols : List RgbwColor) (f : Nat → animState)
    (p : Nat), applyTail f p cols = applyUpdates f ((tailPositions p cols.length).zip cols)
  | [], _, _ => rfl
  | col :: rest, f, p =>
      applyTail_eq_applyUpdates rest
        (updState f p fun s => ⟨s.EndColor, col, s.pixel⟩) (prevPix p)

lemma applyUpdates_append : ∀ (L1 L2 : List (Nat × RgbwColor)) (f : Nat → animState),
    applyUpdates f (L1 ++ L2) = applyUpdates (applyUpdates f L1) L2
  | [], _, _ => rfl
  | (p, col) :: rest, L2, f =>
      applyUpdates_append rest L2 (updState f p fun s => ⟨s.EndColor, col, s.pixel⟩)

lemma applyUpdates_notMem : ∀ (L : List (Nat × RgbwColor)) (f : Nat → animState)
    (q : Nat), q ∉ L.map Prod.fst → applyUpdates f L q = f q
  | [], _, _, _ => rfl
  | (p, col) :: rest, f, q, h => by
      have hq : ¬(q = p ∨ q ∈ rest.map Prod.fst) := by simpa using h
      push_neg at hq
      have hrec := applyUpdates_notMem rest
        (updState f p fun s => ⟨s.EndColor, col, s.pixel⟩) q hq.2
      rw [show applyUpdates f ((p, col) :: rest)
          = applyUpdates (updState f p fun s => ⟨s.EndColor, col, s.pixel⟩) rest from rfl,
        hrec, updState, if_neg hq.1]

lemma applyUpdates_start : ∀ (L : List (Nat × RgbwColor)) (f : Nat → animState)
    (q : Nat), (L.map Prod.fst).Nodup → q ∈ L.map Prod.fst →
    (applyUpdates f L q).StartColor = (f q).EndColor
  | [], _, q, _, hq => absurd hq (by simp)
  | (p, col) :: rest, f, q, hnd, hq => by
      have hnd' : p ∉ rest.map Prod.fst ∧ (rest.map Prod.fst).Nodup := by
        simpa [List.nodup_cons] using hnd
      rw [show applyUpdates f ((p, col) :: rest)
          = applyUpdates (updState f p fun s => ⟨s.EndColor, col, s.pixel⟩) rest from rfl]
      by_cases hqp : q = p
      · subst hqp
        rw [applyUpdates_notMem rest _ q hnd'.1, updState, if_pos rfl]
      · have hq' : q ∈ rest.map Prod.fst := by
          rcases (by simpa using hq : q = p ∨ q ∈ rest.map Prod.fst) with h | h
          · exact absurd h hqp
          · exact h
        rw [applyUpdates_start rest _ q hnd'.2 hq', updState, if_neg hqp]

/-- Claim C10: when the two dots are diametrically opposite (the invariant
established by `setup` and preserved by `spin`), a `modeRotator::spin` event
updates every one of the `PixelCount` ring elements exactly once: the two
backward tail walks of length `PixelCount/2` starting at the new `dot1` and
`dot2` are mutually disjoint, duplicate-free and cover the whole ring, and
every element's new `StartColor` equals its previous `EndColor`. -/
theorem c10_spin_covers_ring (d1 d2 : Nat) (hd1 : d1 < PixelCount)
    (hd2 : d2 = (d1 + PixelCount / 2) % PixelCount)
    (cols1 cols2 : List RgbwColor)
    (h1 : cols1.length = PixelCount / 2) (h2 : cols2.length = PixelCount / 2)
    (f : Nat → animState) :
    ((tailPositions (nextPix d1) (PixelCount / 2)
        ++ tailPositions (nextPix d2) (PixelCount / 2)).Nodup ∧
      (∀ q < PixelCount, q ∈ tailPositions (nextPix d1) (PixelCount / 2)
        ++ tailPositions (nextPix d2) (PixelCount / 2))) ∧
    ∀ q < PixelCount,
      ((rotatorSpin ⟨d1, d2, cols1, cols2, f⟩).state q).StartColor
        = (f q).EndColor := by
  subst hd2
  have cov : ∀ a : Fin PixelCount,
      (tailPositions (nextPix a.val) (PixelCount / 2)
        ++ tailPositions (nextPix ((a.val + PixelCount / 2) % PixelCount))
            (PixelCount / 2)).Nodup ∧
      ∀ q : Fin PixelCount,
        q.val ∈ tailPositions (nextPix a.val) (PixelCount / 2)
          ++ tailPositions (nextPix ((a.val + PixelCount / 2) % PixelCount))
              (PixelCount / 2) := by
    decide
  obtain ⟨cnd, cmem⟩ := cov ⟨d1, hd1⟩
  have hlen1 : (tailPositions (nextPix d1) (PixelCount / 2)).length ≤ cols1.length := by
    simp [tailPositions_length, h1]
  have hlen2 : (tailPositions (nextPix ((d1 + PixelCount / 2) % PixelCount))
      (PixelCount / 2)).length ≤ cols2.length := by
    simp [tailPositions_length, h2]
  have hfst : (((tailPositions (nextPix d1) (PixelCount / 2)).zip cols1
        ++ (tailPositions (nextPix ((d1 + PixelCount / 2) % PixelCount))
            (PixelCount / 2)).zip cols2).map Prod.fst)
      = tailPositions (nextPix d1) (PixelCount / 2)
        ++ tailPositions (nextPix ((d1 + PixelCount / 2) % PixelCount))
            (PixelCount / 2) := by
    rw [List.map_append, List.map_fst_zip _ _ hlen1, List.map_fst_zip _ _ hlen2]
  refine ⟨⟨cnd, fun q hq => cmem ⟨q, hq⟩⟩, ?_⟩
  intro q hq
  have hstate : (rotatorSpin ⟨d1, (d1 + PixelCount / 2) % PixelCount,
        cols1, cols2, f⟩).state
      = applyUpdates f
          ((tailPositions (nextPix d1) (PixelCount / 2)).zip cols1
            ++ (tailPositions (nextPix ((d1 + PixelCount / 2) % PixelCount))
                (PixelCount / 2)).zip cols2) := by
    show applyTail (applyTail f (nextPix d1) cols1)
        (nextPix ((d1 + PixelCount / 2) % PixelCount)) cols2 = _
    rw [applyTail_eq_applyUpdates, applyTail_eq_applyUpdates, h1, h2,
      applyUpdates_append]
  rw [hstate]
  apply applyUpdates_start
  · rw [hfst]
    exact cnd
  · rw [hfst]
    exact cmem ⟨q, hq⟩

/-- Witness for C10 at `d1 = 5`, `d2 = 17`, all-black tail arrays and a state
array whose every entry has `EndColor = red`: after the spin, pixel 3's
`StartColor` is `red`. -/
theorem c10_spin_covers_ring_witness :
    ((rotatorSpin ⟨5, 17, List.replicate 12 black, List.replicate 12 black,
        fun p => ⟨black, red, p⟩⟩).state 3).StartColor = red :=
  (c10_spin_covers_ring 5 17 (by decide) (by decide)
    (List.replicate 12 black) (List.replicate 12 black)
    (by simp [PixelCount]) (by simp [PixelCount])
    (fun p => ⟨black, red, p⟩)).2 3 (by decide)

end Blimp
